import Mathlib

/-!
Verification of the soroban-debugger core against its specification.

The development shallowly embeds the relevant parts of the repository:

* `src/runtime/executor.rs` — the `ContractExecutor` with its `execute`,
  `set_initial_storage` and `parse_args` methods.  These are embedded
  directly from the source.
* The storage snapshot store (`StorageInspector`), the diff algorithm and
  the pattern filter compiler (`StorageFilter`) are called from
  `benches/debugger_bench.rs` but their implementations are not part of
  the source tree; they are modelled from the specification, as marked in
  each doc comment.
-/

namespace SorobanDebugger

/-! ## Executor embedding (src/runtime/executor.rs) -/

/-- The external host value type (`soroban_sdk::Val`); its representation is
owned by the execution host and never inspected by the embedded code. -/
inductive Val : Type where
  | host : Nat → Val
deriving DecidableEq, Repr

/-- The crate error type as used by `executor.rs` (`DebuggerError::ExecutionError`). -/
inductive DebuggerError : Type where
  | ExecutionError : String → DebuggerError
deriving DecidableEq, Repr

/-- The external `soroban_sdk::Env`; opaque host state, modelled as a handle. -/
structure Env where
  handle : Nat
deriving DecidableEq, Repr

/-- The external `soroban_sdk::Address`; modelled as a handle. -/
structure Address where
  handle : Nat
deriving DecidableEq, Repr

/-- `ContractExecutor` from `src/runtime/executor.rs`: an environment and the
registered contract's address. -/
structure ContractExecutor where
  env : Env
  contract_address : Address
deriving DecidableEq, Repr

/-- `ContractExecutor::parse_args` from `src/runtime/executor.rs` lines 74–79:
the body ignores its argument and returns `Ok(vec![])`. -/
def ContractExecutor.parse_args (_e : ContractExecutor) (_args_json : String) :
    Except DebuggerError (List Val) :=
  Except.ok []

/-- `ContractExecutor::set_initial_storage` from `src/runtime/executor.rs`
lines 62–66: the body only logs and returns `Ok(())`; the executor state is
returned unchanged to make the absence of mutation explicit. -/
def ContractExecutor.set_initial_storage (e : ContractExecutor) (_storage_json : String) :
    Except DebuggerError Unit × ContractExecutor :=
  (Except.ok (), e)

/-- The outcome of `env.try_invoke_contract`: the host may fail at two levels
(both mapped to `ExecutionError` by `execute`), or produce a `Val`. -/
abbrev InvokeResult := Except String (Except String Val)

/-- `ContractExecutor::execute` from `src/runtime/executor.rs` lines 33–59.
The host call `try_invoke_contract` is external; it enters the embedding as
the capability `tryInvoke`, receiving the contract address, the function
name and the parsed argument vector exactly as at the call site.  Lines
40–44 compute `parsed_args` from the optional JSON text via `parse_args`,
propagating its error with `?`. -/
def ContractExecutor.execute (e : ContractExecutor)
    (tryInvoke : Address → String → List Val → InvokeResult)
    (function : String) (args : Option String) : Except DebuggerError String := do
  let parsed_args ←
    match args with
    | some args_json => e.parse_args args_json
    | none => Except.ok []
  match tryInvoke e.contract_address function parsed_args with
  | Except.error err =>
      Except.error (DebuggerError.ExecutionError ("Contract execution failed: " ++ err))
  | Except.ok (Except.error err) =>
      Except.error (DebuggerError.ExecutionError ("Contract execution failed: " ++ err))
  | Except.ok (Except.ok v) => Except.ok (reprStr v)

end SorobanDebugger

namespace SorobanDebugger

/-! ## Claims about the executor -/

/-- **C1** (code_bug evidence).  The claim says parsing a valid JSON array of
length 1 yields a one-element argument list; `parse_args` as written returns
`Ok([])` — length 0 — on the claim's own example input. -/
theorem parse_args_drops_valid_array (e : ContractExecutor) :
    ∃ l, e.parse_args "[\x7b\"type\":\"u32\",\"value\":42\x7d]" = Except.ok l ∧ l.length = 0 :=
  ⟨[], rfl, rfl⟩

/-- Witness for `parse_args_drops_valid_array` at a concrete executor. -/
theorem parse_args_drops_valid_array_witness :
    ∃ l, (ContractExecutor.mk ⟨0⟩ ⟨0⟩).parse_args "[\x7b\"type\":\"u32\",\"value\":42\x7d]"
        = Except.ok l ∧ l.length = 0 :=
  parse_args_drops_valid_array (ContractExecutor.mk ⟨0⟩ ⟨0⟩)

/-- **C2** (code_bug evidence).  The claim says the out-of-range input
`[{"type":"u32","value":4294967296}]` is rejected with `OutOfRange`;
`parse_args` as written succeeds with `Ok([])` on it — it returns no error
for any input. -/
theorem parse_args_accepts_out_of_range (e : ContractExecutor) :
    e.parse_args "[\x7b\"type\":\"u32\",\"value\":4294967296\x7d]" = Except.ok [] :=
  rfl

/-- Witness for `parse_args_accepts_out_of_range` at a concrete executor. -/
theorem parse_args_accepts_out_of_range_witness :
    (ContractExecutor.mk ⟨1⟩ ⟨2⟩).parse_args "[\x7b\"type\":\"u32\",\"value\":4294967296\x7d]"
      = Except.ok [] :=
  parse_args_accepts_out_of_range (ContractExecutor.mk ⟨1⟩ ⟨2⟩)

/-- **C3**.  `parse_args` returns `Ok` with the empty vector on every input,
and `execute` consequently behaves identically whether an args JSON string
is supplied or not: the contract is always invoked with zero arguments. -/
theorem parse_args_always_empty :
    (∀ (e : ContractExecutor) (s : String), e.parse_args s = Except.ok []) ∧
    (∀ (e : ContractExecutor) (tryInvoke : Address → String → List Val → InvokeResult)
        (f : String) (s : String),
      e.execute tryInvoke f (some s) = e.execute tryInvoke f none) :=
  ⟨fun _ _ => rfl, fun _ _ _ _ => rfl⟩

/-- **C10**.  `set_initial_storage` returns `Ok(())` on every input and
leaves the executor (environment and contract address) unchanged. -/
theorem set_initial_storage_noop (e : ContractExecutor) (s : String) :
    e.set_initial_storage s = (Except.ok (), e) :=
  rfl

/-! ## Storage snapshot store

Modelled from the spec: the `StorageInspector` implementation
(`soroban_debugger::inspector`) is exercised by `benches/debugger_bench.rs`
(`set`, `get_all`) but its source is not in the tree; the definitions below
follow spec §3 (StorageSnapshotStore, Snapshot) and §4.2. -/

abbrev StorageKey := String
abbrev StorageValue := String

/-- Keys of a pair sequence, in order. -/
def keysOf (pairs : List (StorageKey × StorageValue)) : List StorageKey :=
  pairs.map Prod.fst

/-- Modelled from the spec: the live order-preserving key→value store
(spec §3 StorageSnapshotStore): an ordered sequence of unique pairs. -/
structure StorageInspector where
  pairs : List (StorageKey × StorageValue)
deriving DecidableEq, Repr

/-- Modelled from the spec (§4.2 `set`): idempotent upsert — an existing key
keeps its original position and receives the new value; an absent key is
appended at the end. -/
def StorageInspector.set (s : StorageInspector) (key : StorageKey) (value : StorageValue) :
    StorageInspector :=
  if key ∈ keysOf s.pairs then
    ⟨s.pairs.map fun p => if p.1 = key then (key, value) else p⟩
  else
    ⟨s.pairs ++ [(key, value)]⟩

/-- Modelled from the spec (§4.2 `get`): the value stored at `key`, if any. -/
def StorageInspector.get (s : StorageInspector) (key : StorageKey) : Option StorageValue :=
  (s.pairs.find? fun p => p.1 = key).map Prod.snd

/-- Modelled from the spec (§4.2 `remove`): removes the key if present,
returning whether it existed; relative order of remaining keys is kept. -/
def StorageInspector.remove (s : StorageInspector) (key : StorageKey) :
    StorageInspector × Bool :=
  (⟨s.pairs.filter fun p => p.1 ≠ key⟩, s.pairs.any fun p => p.1 = key)

/-- Modelled from the spec (§4.2 `snapshot` / `get_all` in the bench): an
independent, order-preserving copy of the store's pairs. -/
def StorageInspector.snapshot (s : StorageInspector) : List (StorageKey × StorageValue) :=
  s.pairs

/-- A mutation of the live store: the two mutating operations of §4.2. -/
inductive MutOp : Type where
  | setOp (key : StorageKey) (value : StorageValue)
  | removeOp (key : StorageKey)
deriving DecidableEq, Repr

/-- Apply one mutation to the live store. -/
def applyMut (s : StorageInspector) : MutOp → StorageInspector
  | MutOp.setOp k v => s.set k v
  | MutOp.removeOp k => (s.remove k).1

/-- A debug session: the live store next to the snapshots the driver has
retained so far (spec §5: the driver holds the `before` snapshot while the
live store is mutated). -/
structure Session where
  store : StorageInspector
  snaps : List (List (StorageKey × StorageValue))
deriving DecidableEq, Repr

/-- Run a sequence of live-store mutations inside a session. -/
def Session.applyMuts : Session → List MutOp → Session
  | sess, [] => sess
  | sess, op :: ops => Session.applyMuts ⟨applyMut sess.store op, sess.snaps⟩ ops

/-- Take a snapshot of the live store and retain it. -/
def Session.takeSnapshot (sess : Session) : Session :=
  ⟨sess.store, sess.snaps ++ [sess.store.snapshot]⟩

/-- Mutations leave the retained snapshots untouched. -/
theorem Session.applyMuts_snaps (sess : Session) (ops : List MutOp) :
    (sess.applyMuts ops).snaps = sess.snaps := by
  induction ops generalizing sess with
  | nil => rfl
  | cons op ops ih => exact ih ⟨applyMut sess.store op, sess.snaps⟩

/-- **C4**.  After taking a snapshot, any sequence of `set`/`remove`
mutations of the live store leaves the previously retained snapshot — its
keys, values and their order — unchanged: it is still exactly the pairs the
store held at snapshot time. -/
theorem snapshot_independent (store : StorageInspector)
    (snaps : List (List (StorageKey × StorageValue))) (ops : List MutOp) :
    ((Session.takeSnapshot ⟨store, snaps⟩).applyMuts ops).snaps
      = snaps ++ [store.pairs] :=
  Session.applyMuts_snaps _ ops

/-! ### Upsert semantics of `set` -/

/-- Replacing the entry for `k` in place does not change the key sequence. -/
theorem keysOf_map_replace (pairs : List (StorageKey × StorageValue))
    (k : StorageKey) (v : StorageValue) :
    keysOf (pairs.map fun p => if p.1 = k then (k, v) else p) = keysOf pairs := by
  unfold keysOf
  rw [List.map_map]
  refine List.map_congr_left fun p _ => ?_
  by_cases h : p.1 = k
  · simp [Function.comp, h]
  · simp [Function.comp, h]

/-- After an in-place replacement at an existing key `k`, looking `k` up
finds the replaced pair. -/
theorem find?_map_replace (pairs : List (StorageKey × StorageValue))
    (k : StorageKey) (v : StorageValue) (hmem : k ∈ keysOf pairs) :
    (pairs.map fun p => if p.1 = k then (k, v) else p).find? (fun p => p.1 = k)
      = some (k, v) := by
  induction pairs with
  | nil => simp [keysOf] at hmem
  | cons p ps ih =>
    simp only [keysOf, List.map_cons, List.mem_cons] at hmem
    by_cases h : p.1 = k
    · simp only [List.map_cons, if_pos h]
      rw [List.find?_cons_of_pos]
      simp
    · simp only [List.map_cons, if_neg h]
      rw [List.find?_cons_of_neg]
      · refine ih ?_
        rcases hmem with h1 | h1
        · exact absurd h1.symm h
        · exact h1
      · simp [h]

/-- Looking up a key that is not among a sequence's keys finds nothing. -/
theorem find?_eq_none_of_not_mem (pairs : List (StorageKey × StorageValue))
    (k : StorageKey) (hm : k ∉ keysOf pairs) :
    pairs.find? (fun p => p.1 = k) = none := by
  rw [List.find?_eq_none]
  intro p hp
  simp only [decide_eq_true_eq]
  intro hpk
  exact hm (hpk ▸ List.mem_map_of_mem Prod.fst hp)

/-- **C5**.  `set` on an existing key keeps the key sequence (hence the
key's position) unchanged, `set` on an absent key appends it at the end,
the updated value is retrieved by `get`, keys stay unique, and the spec's
scenario `{a:1, b:2}; set(b,20); set(c,3)` yields `a:1, b:20, c:3` in that
order. -/
theorem set_upsert (pairs : List (StorageKey × StorageValue)) (k : StorageKey)
    (v : StorageValue) (h : (keysOf pairs).Nodup) :
    keysOf ((StorageInspector.mk pairs).set k v).pairs
        = (if k ∈ keysOf pairs then keysOf pairs else keysOf pairs ++ [k])
    ∧ ((StorageInspector.mk pairs).set k v).get k = some v
    ∧ (keysOf ((StorageInspector.mk pairs).set k v).pairs).Nodup
    ∧ (((StorageInspector.mk [("a", "1"), ("b", "2")]).set "b" "20").set "c" "3").pairs
        = [("a", "1"), ("b", "20"), ("c", "3")] := by
  have hkeys : keysOf ((StorageInspector.mk pairs).set k v).pairs
      = (if k ∈ keysOf pairs then keysOf pairs else keysOf pairs ++ [k]) := by
    unfold StorageInspector.set
    by_cases hm : k ∈ keysOf pairs
    · simp only [if_pos hm]
      exact keysOf_map_replace pairs k v
    · simp only [if_neg hm]
      unfold keysOf
      simp
  refine ⟨hkeys, ?_, ?_, by decide⟩
  · unfold StorageInspector.set StorageInspector.get
    by_cases hm : k ∈ keysOf pairs
    · simp only [if_pos hm]
      rw [find?_map_replace pairs k v hm]
      rfl
    · simp only [if_neg hm]
      rw [List.find?_append, find?_eq_none_of_not_mem pairs k hm]
      simp
  · rw [hkeys]
    by_cases hm : k ∈ keysOf pairs
    · simpa [hm] using h
    · simp only [if_neg hm]
      exact h.append (List.nodup_singleton k) (by
        intro a ha hb
        simp only [List.mem_singleton] at hb
        exact hm (hb ▸ ha))

/-- Witness for `set_upsert` at a concrete store, key and value. -/
theorem set_upsert_witness :
    keysOf ((StorageInspector.mk [("a", "1")]).set "b" "2").pairs
        = (if "b" ∈ keysOf [("a", "1")] then keysOf [("a", "1")]
           else keysOf [("a", "1")] ++ ["b"])
    ∧ ((StorageInspector.mk [("a", "1")]).set "b" "2").get "b" = some "2"
    ∧ (keysOf ((StorageInspector.mk [("a", "1")]).set "b" "2").pairs).Nodup
    ∧ (((StorageInspector.mk [("a", "1"), ("b", "2")]).set "b" "20").set "c" "3").pairs
        = [("a", "1"), ("b", "20"), ("c", "3")] :=
  set_upsert [("a", "1")] "b" "2" (by decide)

/-! ## Diff algorithm

Modelled from the spec: the diff implementation is not in the source tree
(the benchmark only hand-rolls a modified-count loop); the definitions
follow spec §3 (DiffEntry) and §4.3 step by step. -/

/-- The classification of one key's change (spec §3 DiffEntry kinds). -/
inductive DiffKind : Type where
  | Added
  | Removed
  | Modified
  | Unchanged
deriving DecidableEq, Repr

/-- Modelled from the spec (§3): one key's classified change between two
snapshots. -/
structure DiffEntry where
  key : StorageKey
  old : Option StorageValue
  new : Option StorageValue
  kind : DiffKind
deriving DecidableEq, Repr

/-- The key→value lookup over a snapshot (spec §4.3 step 1). -/
def lookupSnap (snap : List (StorageKey × StorageValue)) (k : StorageKey) :
    Option StorageValue :=
  (snap.find? fun p => p.1 = k).map Prod.snd

/-- Spec §4.3 step 2: classify one base pair against `updated`. -/
def classifyBase (updated : List (StorageKey × StorageValue))
    (p : StorageKey × StorageValue) : DiffEntry :=
  match lookupSnap updated p.1 with
  | none => ⟨p.1, some p.2, none, DiffKind.Removed⟩
  | some v =>
      if v = p.2 then ⟨p.1, some p.2, some v, DiffKind.Unchanged⟩
      else ⟨p.1, some p.2, some v, DiffKind.Modified⟩

/-- Modelled from the spec (§4.3): base pairs in base order classified
against `updated`, followed by the `updated`-only pairs, in `updated`
order, as `Added`. -/
def diff (base updated : List (StorageKey × StorageValue)) : List DiffEntry :=
  base.map (classifyBase updated)
    ++ (updated.filter fun p => decide (p.1 ∉ keysOf base)).map
        fun p => ⟨p.1, none, some p.2, DiffKind.Added⟩

/-- `classifyBase` keeps the pair's key. -/
theorem classifyBase_key (updated : List (StorageKey × StorageValue))
    (p : StorageKey × StorageValue) : (classifyBase updated p).key = p.1 := by
  unfold classifyBase
  cases lookupSnap updated p.1 with
  | none => rfl
  | some v =>
    by_cases hv : v = p.2
    · simp [hv]
    · simp [hv]

/-- `classifyBase` never classifies a base key as `Added`. -/
theorem classifyBase_kind (updated : List (StorageKey × StorageValue))
    (p : StorageKey × StorageValue) :
    (classifyBase updated p).kind = DiffKind.Removed
    ∨ (classifyBase updated p).kind = DiffKind.Unchanged
    ∨ (classifyBase updated p).kind = DiffKind.Modified := by
  unfold classifyBase
  cases lookupSnap updated p.1 with
  | none => exact Or.inl rfl
  | some v =>
    by_cases hv : v = p.2
    · simp [hv]
    · simp [hv]

/-- Filtering on a predicate of the key commutes with projecting keys. -/
theorem map_fst_filter_key (l : List (StorageKey × StorageValue))
    (q : StorageKey → Bool) :
    (l.filter fun p => q p.1).map Prod.fst = (l.map Prod.fst).filter q := by
  induction l with
  | nil => rfl
  | cons p ps ih =>
    by_cases h : q p.1
    · simp [List.filter_cons, h, ih]
    · simp [List.filter_cons, h, ih]

/-- The key sequence of a diff: base keys in base order, then the
`updated`-only keys in `updated` order. -/
theorem diff_map_key (base updated : List (StorageKey × StorageValue)) :
    (diff base updated).map DiffEntry.key
      = keysOf base ++ (keysOf updated).filter fun k => decide (k ∉ keysOf base) := by
  unfold diff
  rw [List.map_append, List.map_map, List.map_map]
  congr 1
  · exact List.map_congr_left fun p _ => classifyBase_key updated p
  · have h1 : ((updated.filter fun p => decide (p.1 ∉ keysOf base)).map
        (DiffEntry.key ∘ fun p => DiffEntry.mk p.1 none (some p.2) DiffKind.Added))
        = (updated.filter fun p => decide (p.1 ∉ keysOf base)).map Prod.fst :=
      List.map_congr_left fun p _ => rfl
    rw [h1]
    exact map_fst_filter_key updated fun k => decide (k ∉ keysOf base)

/-- **C6**.  `diff` yields exactly one entry per key of the union of the two
snapshots' key sets, ordered as all base keys in base order followed by the
`updated`-only keys in `updated` order; base-key entries are classified
`Removed`, `Unchanged` or `Modified`, and exactly the non-base keys are
classified `Added`. -/
theorem diff_spec (base updated : List (StorageKey × StorageValue))
    (hb : (keysOf base).Nodup) (hu : (keysOf updated).Nodup) :
    (diff base updated).map DiffEntry.key
        = keysOf base ++ ((keysOf updated).filter fun k => decide (k ∉ keysOf base))
    ∧ ((diff base updated).map DiffEntry.key).Nodup
    ∧ (∀ k, k ∈ (diff base updated).map DiffEntry.key
        ↔ (k ∈ keysOf base ∨ k ∈ keysOf updated))
    ∧ (∀ e ∈ diff base updated,
        (e.key ∈ keysOf base →
          (e.kind = DiffKind.Removed ∨ e.kind = DiffKind.Unchanged
            ∨ e.kind = DiffKind.Modified))
        ∧ (e.key ∉ keysOf base → e.kind = DiffKind.Added)) := by
  have hkey := diff_map_key base updated
  refine ⟨hkey, ?_, ?_, ?_⟩
  · rw [hkey]
    refine hb.append (hu.filter _) ?_
    intro a ha hf
    rcases List.mem_filter.1 hf with ⟨_, hdec⟩
    exact (of_decide_eq_true hdec) ha
  · intro k
    rw [hkey]
    simp only [List.mem_append, List.mem_filter, decide_eq_true_eq]
    constructor
    · rintro (h1 | ⟨h1, _⟩)
      · exact Or.inl h1
      · exact Or.inr h1
    · rintro (h1 | h1)
      · exact Or.inl h1
      · by_cases hkb : k ∈ keysOf base
        · exact Or.inl hkb
        · exact Or.inr ⟨h1, hkb⟩
  · intro e he
    rcases List.mem_append.1 he with h1 | h1
    · rcases List.mem_map.1 h1 with ⟨p, hp, rfl⟩
      constructor
      · intro _
        exact classifyBase_kind updated p
      · intro hnot
        exfalso
        exact hnot (classifyBase_key updated p ▸ List.mem_map_of_mem Prod.fst hp)
    · rcases List.mem_map.1 h1 with ⟨p, hp, rfl⟩
      rcases List.mem_filter.1 hp with ⟨_, hdec⟩
      constructor
      · intro hmem
        exact absurd hmem (of_decide_eq_true hdec)
      · intro _
        rfl

/-- Witness for `diff_spec` at two concrete snapshots. -/
theorem diff_spec_witness :
    (diff [("a", "1"), ("b", "2")] [("b", "20"), ("c", "3")]).map DiffEntry.key
        = keysOf [("a", "1"), ("b", "2")]
          ++ ((keysOf [("b", "20"), ("c", "3")]).filter
                fun k => decide (k ∉ keysOf [("a", "1"), ("b", "2")]))
    ∧ ((diff [("a", "1"), ("b", "2")] [("b", "20"), ("c", "3")]).map DiffEntry.key).Nodup
    ∧ (∀ k, k ∈ (diff [("a", "1"), ("b", "2")] [("b", "20"), ("c", "3")]).map DiffEntry.key
        ↔ (k ∈ keysOf [("a", "1"), ("b", "2")] ∨ k ∈ keysOf [("b", "20"), ("c", "3")]))
    ∧ (∀ e ∈ diff [("a", "1"), ("b", "2")] [("b", "20"), ("c", "3")],
        (e.key ∈ keysOf [("a", "1"), ("b", "2")] →
          (e.kind = DiffKind.Removed ∨ e.kind = DiffKind.Unchanged
            ∨ e.kind = DiffKind.Modified))
        ∧ (e.key ∉ keysOf [("a", "1"), ("b", "2")] → e.kind = DiffKind.Added)) :=
  diff_spec [("a", "1"), ("b", "2")] [("b", "20"), ("c", "3")] (by decide) (by decide)

/-- In a snapshot with unique keys, looking up the key of a member pair
finds that pair's value. -/
theorem lookupSnap_mem (S : List (StorageKey × StorageValue))
    (p : StorageKey × StorageValue) (hp : p ∈ S) (h : (keysOf S).Nodup) :
    lookupSnap S p.1 = some p.2 := by
  induction S with
  | nil => cases hp
  | cons q qs ih =>
    simp only [keysOf, List.map_cons, List.nodup_cons] at h
    rcases List.mem_cons.1 hp with rfl | hp'
    · unfold lookupSnap
      rw [List.find?_cons_of_pos _ (by simp)]
      rfl
    · by_cases hq : q.1 = p.1
      · exact absurd (hq ▸ List.mem_map_of_mem Prod.fst hp') h.1
      · unfold lookupSnap
        rw [List.find?_cons_of_neg _ (by simp [hq])]
        exact ih hp' h.2

/-- **C7**.  Diffing a snapshot with unique keys against itself yields one
entry per pair of the snapshot, in the snapshot's original order, each
carrying the pair's value as both `old` and `new` and classified
`Unchanged`. -/
theorem diff_self (S : List (StorageKey × StorageValue))
    (h : (keysOf S).Nodup) :
    diff S S = S.map fun p => ⟨p.1, some p.2, some p.2, DiffKind.Unchanged⟩ := by
  unfold diff
  have h2 : (S.filter fun p => decide (p.1 ∉ keysOf S)) = [] := by
    rw [List.filter_eq_nil_iff]
    intro p hp
    simp only [decide_eq_true_eq, not_not]
    exact List.mem_map_of_mem Prod.fst hp
  rw [h2]
  simp only [List.map_nil, List.append_nil]
  refine List.map_congr_left fun p hp => ?_
  unfold classifyBase
  rw [lookupSnap_mem S p hp h]
  simp

/-- Witness for `diff_self` at a concrete snapshot. -/
theorem diff_self_witness :
    diff [("a", "1"), ("b", "2")] [("a", "1"), ("b", "2")]
      = List.map (fun p => ⟨p.1, some p.2, some p.2, DiffKind.Unchanged⟩)
          [("a", "1"), ("b", "2")] :=
  diff_self [("a", "1"), ("b", "2")] (by decide)

/-! ## Pattern filter compiler

Modelled from the spec: the `StorageFilter` implementation is exercised by
`benches/debugger_bench.rs` (`StorageFilter::new`, `matches`) but its
source is not in the tree; the definitions follow spec §3 (FilterPattern,
CompiledFilter), §4.4 and §7 (FilterError).  The external regex engine
enters the embedding as a compile capability `rc` that either rejects a
pattern with a message or produces a compiled matcher. -/

/-- A compiled regex matcher as produced by the external regex engine. -/
abbrev RegexMatcher := String → Bool

/-- Spec §7: the filter error taxonomy — `InvalidRegex{pattern, message}`. -/
inductive FilterError : Type where
  | InvalidRegex : String → String → FilterError

/-- Spec §3: one compiled pattern — exact literal, glob, or regex. -/
inductive FilterPattern : Type where
  | Exact : String → FilterPattern
  | Wildcard : String → FilterPattern
  | Regex : RegexMatcher → FilterPattern

/-- Modelled from the spec (§3 CompiledFilter): the ordered patterns of a
compiled filter, OR-combined by `matches`. -/
structure StorageFilter where
  patterns : List FilterPattern

/-- Spec §4.4 syntax rule 1: the pattern starts with the prefix `re:`. -/
def isRegexPattern (pattern : String) : Bool :=
  pattern.data.take 3 = ['r', 'e', ':']

/-- The remainder of a `re:` pattern, handed to the regex engine. -/
def regexRest (pattern : String) : String :=
  String.mk (pattern.data.drop 3)

/-- Spec §4.4 syntax rule 2: the pattern contains a `*`. -/
def hasStar (pattern : String) : Bool :=
  pattern.data.contains '*'

/-- Anchored glob matching (spec §4.4 rule 2): `*` matches zero or more
arbitrary characters, every other character only itself. -/
def globMatch : List Char → List Char → Bool
  | [], [] => true
  | [], _ :: _ => false
  | '*' :: ps, [] => globMatch ps []
  | '*' :: ps, c :: cs => globMatch ps (c :: cs) || globMatch ('*' :: ps) cs
  | _ :: _, [] => false
  | p :: ps, c :: cs => decide (p = c) && globMatch ps cs
termination_by ps cs => (ps.length, cs.length)

/-- Compile one pattern string, trying the three syntaxes in spec §4.4
priority order. -/
def compilePattern (rc : String → Except String RegexMatcher)
    (pattern : String) : Except FilterError FilterPattern :=
  if isRegexPattern pattern then
    match rc (regexRest pattern) with
    | Except.error msg => Except.error (FilterError.InvalidRegex pattern msg)
    | Except.ok m => Except.ok (FilterPattern.Regex m)
  else if hasStar pattern then
    Except.ok (FilterPattern.Wildcard pattern)
  else
    Except.ok (FilterPattern.Exact pattern)

/-- Compile every pattern, aborting on the first failure (spec §4.4, §7: no
partially-built filter reaches the caller). -/
def compileAll (rc : String → Except String RegexMatcher) :
    List String → Except FilterError (List FilterPattern)
  | [] => Except.ok []
  | p :: ps =>
    match compilePattern rc p with
    | Except.error e => Except.error e
    | Except.ok fp =>
      match compileAll rc ps with
      | Except.error e => Except.error e
      | Except.ok rest => Except.ok (fp :: rest)

/-- Modelled from the spec (§4.4 `compile`, called `StorageFilter::new` in
the bench): build the compiled filter from the pattern strings. -/
def StorageFilter.new (rc : String → Except String RegexMatcher)
    (patterns : List String) : Except FilterError StorageFilter :=
  (compileAll rc patterns).map StorageFilter.mk

/-- Whether one compiled pattern matches a key. -/
def FilterPattern.matchesKey : FilterPattern → String → Bool
  | FilterPattern.Exact s, key => decide (s = key)
  | FilterPattern.Wildcard p, key => globMatch p.data key.data
  | FilterPattern.Regex m, key => m key

/-- Spec §4.4 `matches`: true iff any contained pattern matches the key. -/
def StorageFilter.matches (f : StorageFilter) (key : String) : Bool :=
  f.patterns.any fun p => p.matchesKey key

/-- A malformed `re:` pattern anywhere in the sequence makes `compileAll`
fail with `InvalidRegex`. -/
theorem compileAll_invalid_regex (rc : String → Except String RegexMatcher)
    (pats : List String) (p : String) (msg : String)
    (hmem : p ∈ pats) (hpre : isRegexPattern p = true)
    (hrc : rc (regexRest p) = Except.error msg) :
    ∃ pat m, compileAll rc pats = Except.error (FilterError.InvalidRegex pat m) := by
  induction pats with
  | nil => cases hmem
  | cons q qs ih =>
    rcases List.mem_cons.1 hmem with rfl | hmem'
    · exact ⟨p, msg, by simp [compileAll, compilePattern, hpre, hrc]⟩
    · obtain ⟨pat, m, hqs⟩ := ih hmem'
      cases hq : compilePattern rc q with
      | error e =>
        cases e with
        | InvalidRegex a b => exact ⟨a, b, by simp [compileAll, hq]⟩
      | ok fp => exact ⟨pat, m, by simp [compileAll, hq, hqs]⟩

/-- **C8**.  If any pattern in the sequence is `re:`-prefixed and its
remainder is rejected by the regex engine, the whole compile call fails
with `InvalidRegex` — the caller receives an error, never a
partially-built filter — regardless of the other patterns. -/
theorem new_fails_on_invalid_regex (rc : String → Except String RegexMatcher)
    (pats : List String) (p : String) (msg : String)
    (hmem : p ∈ pats) (hpre : isRegexPattern p = true)
    (hrc : rc (regexRest p) = Except.error msg) :
    ∃ pat m, StorageFilter.new rc pats
        = Except.error (FilterError.InvalidRegex pat m) := by
  obtain ⟨pat, m, h⟩ := compileAll_invalid_regex rc pats p msg hmem hpre hrc
  exact ⟨pat, m, by simp [StorageFilter.new, h, Except.map]⟩

/-- Witness for `new_fails_on_invalid_regex`: a regex engine rejecting
every expression, applied to `["balance", "re:("]`. -/
theorem new_fails_on_invalid_regex_witness :
    ∃ pat m,
      StorageFilter.new (fun _ => Except.error "unclosed group")
          ["balance", "re:("]
        = Except.error (FilterError.InvalidRegex pat m) :=
  new_fails_on_invalid_regex (fun _ => Except.error "unclosed group")
    ["balance", "re:("] "re:(" "unclosed group" (by decide) (by decide) rfl

/-- **C9**.  Compiling the empty pattern sequence succeeds, and the
resulting filter matches no key at all. -/
theorem new_empty_matches_nothing (rc : String → Except String RegexMatcher) :
    ∃ f, StorageFilter.new rc [] = Except.ok f
      ∧ ∀ key, f.matches key = false :=
  ⟨StorageFilter.mk [], rfl, fun _ => rfl⟩

end SorobanDebugger
